import Mathlib

/-!
Verification of the Saturn particle application core.

This file gives a shallow embedding of the application's core logic:
the gesture state machine and phrase pool from `App.tsx`, the blend
transition driver, particle-field generation, per-frame rotation and the
vertex blend formula from `components/SaturnScene.tsx`.  Machine floats
are modelled as exact rationals or reals; the transcendental library
functions (sin, cos, acos, sqrt) and the constant pi are passed in as
parameters so that every definition stays executable, and are
instantiated with the real functions in the theorems that need their
values.
-/

namespace SaturnApp

/-- `GestureState` from `types.ts`: CLOSED (gathered), OPEN (dispersed),
NONE (no hand detected). -/
inductive GState where
  | OPEN : GState
  | CLOSED : GState
  | NONE : GState
deriving DecidableEq, Repr

/-- The application state relevant to the gesture handler in `App.tsx`:
`isExpanded`, `gestureState`, the pool `availableIndices` of phrase
indices not yet shown in the current cycle, the currently displayed
phrase (as an index into `PHRASES`; `none` models the initial empty
phrase and an out-of-range lookup), and an instrumentation counter for
the number of `triggerNewPhrase` invocations. -/
structure AppState where
  isExpanded : Bool
  gestureState : GState
  availableIndices : List ℕ
  currentPhrase : Option ℕ
  selectCount : ℕ
deriving DecidableEq, Repr

/-- Initial state of `App.tsx`: collapsed, gesture CLOSED, the phrase
pool holding every index `0..K-1`, no phrase shown yet.  `K` is
`PHRASES.length`. -/
def initState (K : ℕ) : AppState :=
  { isExpanded := false
    gestureState := GState.CLOSED
    availableIndices := List.range K
    currentPhrase := none
    selectCount := 0 }

/-- One call of the phrase selection core (`triggerNewPhrase` in
`App.tsx`): if the pool is empty it is refilled to the full index range
`0..K-1`; the random draw `Math.floor(Math.random() * indices.length)`
is modelled by the given index `r`; the element at position `r` is
returned (`none` when `r` is out of range, modelling a JavaScript
`undefined` lookup) and removed from the pool (`splice`, which removes
nothing when `r` is out of range, is `List.eraseIdx`). -/
def selectPhrase (K : ℕ) (avail : List ℕ) (r : ℕ) : Option ℕ × List ℕ :=
  let indices := if avail.isEmpty then List.range K else avail
  (indices[r]?, indices.eraseIdx r)

/-- `triggerNewPhrase` from `App.tsx`, acting on the application state:
select a phrase index from `availableIndices` (with refill on
exhaustion), store the shrunk pool and the chosen phrase, and bump the
invocation counter. -/
def triggerNewPhrase (K : ℕ) (r : ℕ) (s : AppState) : AppState :=
  let res := selectPhrase K s.availableIndices r
  { s with
    availableIndices := res.2
    currentPhrase := res.1
    selectCount := s.selectCount + 1 }

/-- `handleGestureDetected` from `App.tsx`: on OPEN while collapsed,
expand and trigger a new phrase; on CLOSED while expanded, collapse;
otherwise (NONE or a repeated signal) no transition.  In every case the
stored gesture state becomes the detected signal. -/
def handleGestureDetected (K : ℕ) (sig : GState) (r : ℕ) (s : AppState) : AppState :=
  let s1 :=
    if sig = GState.OPEN ∧ s.isExpanded = false then
      triggerNewPhrase K r { s with isExpanded := true }
    else if sig = GState.CLOSED ∧ s.isExpanded = true then
      { s with isExpanded := false }
    else s
  { s1 with gestureState := sig }

/-- `handleManualToggle` from `App.tsx`: the manual override.  When
expanded it collapses and records CLOSED; when collapsed it expands,
records OPEN, and triggers a new phrase. -/
def handleManualToggle (K : ℕ) (r : ℕ) (s : AppState) : AppState :=
  if s.isExpanded = true then
    { s with isExpanded := false, gestureState := GState.CLOSED }
  else
    triggerNewPhrase K r { s with isExpanded := true, gestureState := GState.OPEN }

/-- One polling tick: feed a detected signal (with its random draw) to
the gesture handler. -/
def gestureStep (K : ℕ) (s : AppState) (inp : GState × ℕ) : AppState :=
  handleGestureDetected K inp.1 inp.2 s

/-- Run the gesture handler over a sequence of signals. -/
def runGestures (K : ℕ) (s : AppState) (inputs : List (GState × ℕ)) : AppState :=
  inputs.foldl (gestureStep K) s

/-- Number of COLLAPSED→EXPANDED transitions caused by a signal
sequence. -/
def expandedTransitions (K : ℕ) (s : AppState) : List (GState × ℕ) → ℕ
  | [] => 0
  | inp :: rest =>
    let s' := gestureStep K s inp
    (if s.isExpanded = false ∧ s'.isExpanded = true then 1 else 0) +
      expandedTransitions K s' rest

/-- Number of EXPANDED→COLLAPSED transitions caused by a signal
sequence. -/
def collapsedTransitions (K : ℕ) (s : AppState) : List (GState × ℕ) → ℕ
  | [] => 0
  | inp :: rest =>
    let s' := gestureStep K s inp
    (if s.isExpanded = true ∧ s'.isExpanded = false then 1 else 0) +
      collapsedTransitions K s' rest

/-- `n` consecutive invocations of the phrase selection starting from
the full pool: returns the list of phrase indices picked so far (most
recent first) and the current pool.  Invocation `j` (0-based) uses the
random draw `choices j`. -/
def selectRun (K : ℕ) (choices : ℕ → ℕ) : ℕ → List ℕ × List ℕ
  | 0 => ([], List.range K)
  | n + 1 =>
    ((selectPhrase K (selectRun K choices n).2 (choices n)).1.elim
        (selectRun K choices n).1 (fun i => i :: (selectRun K choices n).1),
      (selectPhrase K (selectRun K choices n).2 (choices n)).2)

/-- One frame of the expansion blend update from
`components/SaturnScene.tsx` (`useFrame`):
`uExpansion += (target - uExpansion) * 0.04` with
`target = isExpanded ? 1.0 : 0.0`.  Floats are modelled as exact
rationals. -/
def blendStep (b : ℚ) (isExpanded : Bool) : ℚ :=
  b + ((if isExpanded then 1 else 0) - b) * 0.04

/-- The blend value after a sequence of frames, each carrying that
frame's `isExpanded` flag, starting from the initial value 0. -/
def blendRun (frames : List Bool) : ℚ :=
  frames.foldl blendStep 0

/-- One frame of the Y-axis rotation update from
`components/SaturnScene.tsx` (`useFrame`):
`if (!isExpanded) rotation.y += 0.001`. -/
def rotYStep (r : ℚ) (isExpanded : Bool) : ℚ :=
  if isExpanded then r else r + 0.001

/-- The accumulated Y rotation angle after a sequence of frames, each
carrying that frame's `isExpanded` flag, starting from 0. -/
def rotYRun (frames : List Bool) : ℚ :=
  frames.foldl rotYStep 0

/-! ### Particle field generation (`components/SaturnScene.tsx`) -/

/-- A three-component vector of coordinates. -/
structure Vec3 (α : Type) where
  x : α
  y : α
  z : α
deriving DecidableEq, Repr

/-- The mathematical library functions the generator and shader use,
passed in abstractly so definitions stay executable; theorems
instantiate them with `Real.sqrt`, `Real.cos`, `Real.sin`,
`Real.arccos` and `Real.pi`. -/
structure MathFns (α : Type) where
  sqrtF : α → α
  cosF : α → α
  sinF : α → α
  acosF : α → α
  piV : α

/-- The shape constants imported from `constants.ts`: `SATURN_RADIUS`,
`RING_INNER_RADIUS`, `RING_OUTER_RADIUS`, `EXPANSION_SCALE`. -/
structure FieldParams (α : Type) where
  saturnRadius : α
  ringInner : α
  ringOuter : α
  expansionScale : α

/-- The two structural particle groups. -/
inductive Group where
  | body : Group
  | ring : Group
deriving DecidableEq, Repr

/-- One generated particle: its group, home (compact-shape) position,
scatter (dispersed-shape) target, palette flag (which of the group's two
colors) and size. -/
structure Particle (α : Type) where
  group : Group
  home : Vec3 α
  scatter : Vec3 α
  colorA : Bool
  size : α

/-- `sphereCount` from `components/SaturnScene.tsx`:
`Math.floor(PARTICLE_COUNT * 0.35)`, the number of body particles. -/
def sphereCount (N : ℕ) : ℕ :=
  N * 35 / 100

/-- The ring radius sampling transform from
`components/SaturnScene.tsx`:
`r = Math.sqrt(t) * (RING_OUTER_RADIUS - RING_INNER_RADIUS) + RING_INNER_RADIUS`
with `t = Math.random()`. -/
def ringRadius {α : Type} [Field α] (sqrtF : α → α) (inner outer t : α) : α :=
  sqrtF t * (outer - inner) + inner

/-- Body particle `i` of `M` from the sphere loop of
`components/SaturnScene.tsx`: spiral placement
`phi = acos(-1 + 2i/M)`, `theta = sqrt(M*pi)*phi`, converted to
Cartesian coordinates with the vertical axis compressed by 0.9; random
scatter target scaled by `EXPANSION_SCALE * 2.5`; alternating palette
color; random size in `[0.2, 0.6)`.  The particle consumes the random
draws `rnd (4i) .. rnd (4i+3)`. -/
def mkBodyParticle {α : Type} [LinearOrderedField α] (F : MathFns α)
    (P : FieldParams α) (M i : ℕ) (rnd : ℕ → α) : Particle α :=
  let phi := F.acosF (-1 + (2 * (i : α)) / (M : α))
  let theta := F.sqrtF ((M : α) * F.piV) * phi
  let r := P.saturnRadius
  { group := Group.body
    home := ⟨r * F.cosF theta * F.sinF phi,
             (r * F.sinF theta * F.sinF phi) * 0.9,
             r * F.cosF phi⟩
    scatter := ⟨(rnd (4 * i) - 0.5) * P.expansionScale * 2.5,
                (rnd (4 * i + 1) - 0.5) * P.expansionScale * 2.5,
                (rnd (4 * i + 2) - 0.5) * P.expansionScale * 2.5⟩
    colorA := i % 2 == 0
    size := rnd (4 * i + 3) * 0.4 + 0.2 }

/-- Ring particle `i` from the ring loop of
`components/SaturnScene.tsx`: uniform angle `rnd * 2 * pi`, radius via
the square-root transform `ringRadius`, thin vertical jitter
`(rnd - 0.5) * 0.4`; random scatter target scaled by
`EXPANSION_SCALE * 4`; palette chosen by `rnd > 0.4`; random size in
`[0.1, 0.35)`.  The particle consumes the random draws
`rnd (base + 8i) .. rnd (base + 8i + 7)`. -/
def mkRingParticle {α : Type} [LinearOrderedField α] (F : MathFns α)
    (P : FieldParams α) (base i : ℕ) (rnd : ℕ → α) : Particle α :=
  let angle := rnd (base + 8 * i) * F.piV * 2
  let t := rnd (base + 8 * i + 1)
  let r := ringRadius F.sqrtF P.ringInner P.ringOuter t
  { group := Group.ring
    home := ⟨F.cosF angle * r,
             (rnd (base + 8 * i + 2) - 0.5) * 0.4,
             F.sinF angle * r⟩
    scatter := ⟨(rnd (base + 8 * i + 3) - 0.5) * P.expansionScale * 4,
                (rnd (base + 8 * i + 4) - 0.5) * P.expansionScale * 4,
                (rnd (base + 8 * i + 5) - 0.5) * P.expansionScale * 4⟩
    colorA := if rnd (base + 8 * i + 6) > 0.4 then true else false
    size := rnd (base + 8 * i + 7) * 0.25 + 0.1 }

/-- The particle generation `useMemo` of `components/SaturnScene.tsx`:
`sphereCount = floor(N * 0.35)` body particles followed by
`N - sphereCount` ring particles.  `rnd` is the stream of
`Math.random()` draws.  There is no parameter validation in the
source. -/
def generateParticles {α : Type} [LinearOrderedField α] (F : MathFns α)
    (P : FieldParams α) (N : ℕ) (rnd : ℕ → α) : List (Particle α) :=
  let M := sphereCount N
  (List.range M).map (fun i => mkBodyParticle F P M i rnd) ++
    (List.range (N - M)).map (fun i => mkRingParticle F P (4 * M) i rnd)

/-! ### Vertex shader blend (`components/SaturnScene.tsx`) -/

/-- GLSL `mix(a, b, t) = a * (1 - t) + b * t`. -/
def mixF {α : Type} [Field α] (a b t : α) : α :=
  a * (1 - t) + b * t

/-- GLSL `clamp(x, lo, hi) = min(max(x, lo), hi)`. -/
def clampF {α : Type} [LinearOrder α] (x lo hi : α) : α :=
  min (max x lo) hi

/-- GLSL `smoothstep(e0, e1, x)`: clamp `(x - e0)/(e1 - e0)` to `[0,1]`
and apply `t * t * (3 - 2t)`. -/
def smoothstepF {α : Type} [LinearOrderedField α] (e0 e1 x : α) : α :=
  let t := clampF ((x - e0) / (e1 - e0)) 0 1
  t * t * (3 - 2 * t)

/-- Componentwise vector mix. -/
def vmix {α : Type} [Field α] (a b : Vec3 α) (t : α) : Vec3 α :=
  ⟨mixF a.x b.x t, mixF a.y b.y t, mixF a.z b.z t⟩

/-- Componentwise vector addition. -/
def vaddV {α : Type} [Field α] (a b : Vec3 α) : Vec3 α :=
  ⟨a.x + b.x, a.y + b.y, a.z + b.z⟩

/-- The time-varying additive wander of the dispersed branch in the
vertex shader (`noiseFreq = 0.5`, `noiseAmp = 2.0`):
`(sin(uTime*0.5 + rand.y*0.5), cos(uTime*0.3 + rand.x*0.5),
sin(uTime*0.4 + rand.z*0.5)) * 2`. -/
def wanderVec {α : Type} [Field α] (sinF cosF : α → α) (uTime : α)
    (aRand : Vec3 α) : Vec3 α :=
  ⟨sinF (uTime * 0.5 + aRand.y * 0.5) * 2.0,
   cosF (uTime * 0.3 + aRand.x * 0.5) * 2.0,
   sinF (uTime * 0.4 + aRand.z * 0.5) * 2.0⟩

/-- The compact-mode branch of the vertex shader: the home position
plus the sinusoidal vertical bob `sin(uTime*2 + pos.x) * 0.1`. -/
def compactPos {α : Type} [Field α] (sinF : α → α) (uTime : α)
    (pos : Vec3 α) : Vec3 α :=
  ⟨pos.x, pos.y + sinF (uTime * 2.0 + pos.x) * 0.1, pos.z⟩

/-- The dispersed-mode branch of the vertex shader: the scatter target
plus the time-varying wander. -/
def dispersedPos {α : Type} [Field α] (sinF cosF : α → α) (uTime : α)
    (aRand : Vec3 α) : Vec3 α :=
  vaddV aRand (wanderVec sinF cosF uTime aRand)

/-- `main` of the vertex shader in `components/SaturnScene.tsx`: the
wander is added to the scatter endpoint only when `uExpansion > 0.01`,
the bob is added to the home endpoint only when `uExpansion < 0.99`,
and the two endpoints are mixed with weight
`smoothstep(0.0, 1.0, uExpansion)`. -/
def vertexFinalPos {α : Type} [LinearOrderedField α] (sinF cosF : α → α)
    (uTime uExpansion : α) (pos aRand : Vec3 α) : Vec3 α :=
  vmix (if uExpansion < 0.99 then compactPos sinF uTime pos else pos)
    (if uExpansion > 0.01 then dispersedPos sinF cosF uTime aRand else aRand)
    (smoothstepF 0 1 uExpansion)

/-! ## Helper lemmas -/

lemma blendStep_bounds {b : ℚ} (m : Bool) (h0 : 0 ≤ b) (h1 : b < 1) :
    0 ≤ blendStep b m ∧ blendStep b m < 1 := by
  cases m with
  | false =>
    have e : blendStep b false = b + (0 - b) * 0.04 := by
      simp [blendStep]
    rw [e]; constructor <;> nlinarith
  | true =>
    have e : blendStep b true = b + (1 - b) * 0.04 := by
      simp [blendStep]
    rw [e]; constructor <;> nlinarith

lemma blendFold_bounds (frames : List Bool) :
    ∀ b : ℚ, 0 ≤ b → b < 1 →
      0 ≤ frames.foldl blendStep b ∧ frames.foldl blendStep b < 1 := by
  induction frames with
  | nil => intro b h0 h1; exact ⟨h0, h1⟩
  | cons m ms ih =>
    intro b h0 h1
    obtain ⟨h0', h1'⟩ := blendStep_bounds m h0 h1
    simpa using ih (blendStep b m) h0' h1'

lemma blend_dispersed_gap :
    ∀ (n : ℕ) (b : ℚ),
      1 - (List.replicate n true).foldl blendStep b = (24 / 25) ^ n * (1 - b) := by
  intro n
  induction n with
  | zero => intro b; simp
  | succ n ih =>
    intro b
    rw [List.replicate_succ, List.foldl_cons, ih (blendStep b true)]
    have e : (1 : ℚ) - blendStep b true = (24 / 25) * (1 - b) := by
      simp only [blendStep, if_true]; ring_nf
    rw [e]; ring

lemma pow_24_25_small : ((24 : ℚ) / 25) ^ 113 ≤ 1 / 100 := by
  norm_num

lemma rotYFold_eq (frames : List Bool) :
    ∀ r : ℚ, frames.foldl rotYStep r = r + (frames.count false : ℚ) * 0.001 := by
  induction frames with
  | nil => intro r; simp
  | cons m ms ih =>
    intro r
    cases m with
    | false =>
      have e : rotYStep r false = r + 0.001 := by simp [rotYStep]
      rw [List.foldl_cons, e, ih]
      simp [List.count_cons]
      ring
    | true =>
      have e : rotYStep r true = r := by simp [rotYStep]
      rw [List.foldl_cons, e, ih]
      simp [List.count_cons]

lemma perm_get_cons_eraseIdx :
    ∀ (l : List ℕ) (r : ℕ) (h : r < l.length),
      l.Perm (l.get ⟨r, h⟩ :: l.eraseIdx r)
  | _ :: _, 0, _ => by simp
  | a :: t, r + 1, h => by
    have h' : r < t.length := by simpa using h
    have ih := perm_get_cons_eraseIdx t r h'
    have step1 : (a :: t).Perm (a :: (t.get ⟨r, h'⟩ :: t.eraseIdx r)) := ih.cons a
    have step2 : (a :: (t.get ⟨r, h'⟩ :: t.eraseIdx r)).Perm
        (t.get ⟨r, h'⟩ :: a :: t.eraseIdx r) := List.Perm.swap _ _ _
    simpa using step1.trans step2

lemma selectPhrase_nonempty (K : ℕ) {avail : List ℕ} {r : ℕ}
    (hne : avail.isEmpty = false) (hr : r < avail.length) :
    selectPhrase K avail r = (some (avail.get ⟨r, hr⟩), avail.eraseIdx r) := by
  simp [selectPhrase, hne, List.getElem?_eq_getElem hr]

lemma selectRun_spec (K : ℕ) (choices : ℕ → ℕ)
    (hc : ∀ i, i < K → choices i < K - i) :
    ∀ j, j ≤ K →
      (selectRun K choices j).1.length = j ∧
      ((selectRun K choices j).1 ++ (selectRun K choices j).2).Perm (List.range K) := by
  intro j
  induction j with
  | zero => intro _; simp [selectRun]
  | succ j ih =>
    intro hj
    obtain ⟨hlen, hperm⟩ := ih (Nat.le_of_succ_le hj)
    have htot : (selectRun K choices j).1.length + (selectRun K choices j).2.length
        = K := by
      have hl := hperm.length_eq
      simpa [List.length_append, List.length_range] using hl
    have hjK : j < K := hj
    have havail : (selectRun K choices j).2.length = K - j := by omega
    have hpos : 0 < (selectRun K choices j).2.length := by omega
    have hne : (selectRun K choices j).2.isEmpty = false := by
      cases h2 : (selectRun K choices j).2 with
      | nil => rw [h2] at hpos; simp at hpos
      | cons a t => simp
    have hr : choices j < (selectRun K choices j).2.length := by
      rw [havail]; exact hc j hjK
    have hstep : selectRun K choices (j + 1) =
        ((selectRun K choices j).2.get ⟨choices j, hr⟩ :: (selectRun K choices j).1,
          (selectRun K choices j).2.eraseIdx (choices j)) := by
      show ((selectPhrase K (selectRun K choices j).2 (choices j)).1.elim
          (selectRun K choices j).1 (fun i => i :: (selectRun K choices j).1),
        (selectPhrase K (selectRun K choices j).2 (choices j)).2) = _
      rw [selectPhrase_nonempty K hne hr]
      rfl
    rw [hstep]
    set p := (selectRun K choices j).1 with hp
    set v := (selectRun K choices j).2 with hv
    constructor
    · simpa using hlen
    · have hpe : v.Perm (v.get ⟨choices j, hr⟩ :: v.eraseIdx (choices j)) :=
        perm_get_cons_eraseIdx _ _ hr
      have e1 : (v.get ⟨choices j, hr⟩ :: p) ++ v.eraseIdx (choices j) =
          v.get ⟨choices j, hr⟩ :: (p ++ v.eraseIdx (choices j)) := by simp
      rw [e1]
      have s1 : (v.get ⟨choices j, hr⟩ :: (p ++ v.eraseIdx (choices j))).Perm
          (p ++ (v.get ⟨choices j, hr⟩ :: v.eraseIdx (choices j))) :=
        List.perm_middle.symm
      have s2 : (p ++ (v.get ⟨choices j, hr⟩ :: v.eraseIdx (choices j))).Perm (p ++ v) :=
        (List.Perm.append_left _ hpe).symm
      exact (s1.trans s2).trans hperm

lemma sphereCount_le (N : ℕ) : sphereCount N ≤ N := by
  have h1 : N * 35 ≤ N * 100 := Nat.mul_le_mul_left N (by norm_num)
  have h2 : N * 35 / 100 ≤ N * 100 / 100 := Nat.div_le_div_right h1
  have h3 : N * 100 / 100 = N := Nat.mul_div_cancel N (by norm_num)
  unfold sphereCount
  omega

lemma generateParticles_length {α : Type} [LinearOrderedField α] (F : MathFns α)
    (P : FieldParams α) (N : ℕ) (rnd : ℕ → α) :
    (generateParticles F P N rnd).length = N := by
  have h := sphereCount_le N
  simp [generateParticles]
  omega

lemma generateParticles_countP_body {α : Type} [LinearOrderedField α]
    (F : MathFns α) (P : FieldParams α) (N : ℕ) (rnd : ℕ → α) :
    (generateParticles F P N rnd).countP (fun p => p.group == Group.body)
      = sphereCount N := by
  unfold generateParticles
  rw [List.countP_append]
  have h1 : List.countP (fun p => p.group == Group.body)
      ((List.range (sphereCount N)).map
        (fun i => mkBodyParticle F P (sphereCount N) i rnd))
      = sphereCount N := by
    rw [List.countP_eq_length.mpr, List.length_map, List.length_range]
    intro p hp
    obtain ⟨i, _, rfl⟩ := List.mem_map.mp hp
    rfl
  have h2 : List.countP (fun p => p.group == Group.body)
      ((List.range (N - sphereCount N)).map
        (fun i => mkRingParticle F P (4 * sphereCount N) i rnd)) = 0 := by
    rw [List.countP_eq_zero]
    intro p hp
    obtain ⟨i, _, rfl⟩ := List.mem_map.mp hp
    simp [mkRingParticle]
  rw [h1, h2]
  omega

lemma generateParticles_countP_ring {α : Type} [LinearOrderedField α]
    (F : MathFns α) (P : FieldParams α) (N : ℕ) (rnd : ℕ → α) :
    (generateParticles F P N rnd).countP (fun p => p.group == Group.ring)
      = N - sphereCount N := by
  unfold generateParticles
  rw [List.countP_append]
  have h1 : List.countP (fun p => p.group == Group.ring)
      ((List.range (sphereCount N)).map
        (fun i => mkBodyParticle F P (sphereCount N) i rnd)) = 0 := by
    rw [List.countP_eq_zero]
    intro p hp
    obtain ⟨i, _, rfl⟩ := List.mem_map.mp hp
    simp [mkBodyParticle]
  have h2 : List.countP (fun p => p.group == Group.ring)
      ((List.range (N - sphereCount N)).map
        (fun i => mkRingParticle F P (4 * sphereCount N) i rnd))
      = N - sphereCount N := by
    rw [List.countP_eq_length.mpr, List.length_map, List.length_range]
    intro p hp
    obtain ⟨i, _, rfl⟩ := List.mem_map.mp hp
    rfl
  rw [h1, h2]
  omega

lemma mixF_between {α : Type} [LinearOrderedField α] (a b t : α)
    (h0 : 0 ≤ t) (h1 : t ≤ 1) :
    min a b ≤ mixF a b t ∧ mixF a b t ≤ max a b := by
  unfold mixF
  rcases le_total a b with h | h
  · rw [min_eq_left h, max_eq_right h]
    constructor <;> nlinarith
  · rw [min_eq_right h, max_eq_left h]
    constructor <;> nlinarith

lemma smoothstepF_of_unit {α : Type} [LinearOrderedField α] {u : α}
    (h0 : 0 ≤ u) (h1 : u ≤ 1) :
    smoothstepF 0 1 u = u * u * (3 - 2 * u) := by
  unfold smoothstepF clampF
  rw [sub_zero, sub_zero, div_one, max_eq_left h0, min_eq_left h1]

lemma smoothstepF_unit_bounds {α : Type} [LinearOrderedField α] {u : α}
    (h0 : 0 ≤ u) (h1 : u ≤ 1) :
    0 ≤ smoothstepF 0 1 u ∧ smoothstepF 0 1 u ≤ 1 := by
  rw [smoothstepF_of_unit h0 h1]
  have key : (0 : α) ≤ (1 - u) ^ 2 * (1 + 2 * u) :=
    mul_nonneg (sq_nonneg _) (by linarith)
  constructor
  · nlinarith
  · nlinarith [key]

/-! ## Claim theorems -/

/-- Claim C1: for every `N ≥ 1` (and any shape parameters and random
stream), the particle generation produces exactly `N` particles; each
particle belongs to exactly one of the two groups body and ring; the
body group has `floor(N * 0.35)` particles, which lies between
`floor(0.35 N)` and `floor(0.4 N)`; and the ring group holds all the
remaining `N - floor(0.35 N)` particles.  Group membership is a field
fixed at construction. -/
theorem particle_field_partition {α : Type} [LinearOrderedField α]
    (F : MathFns α) (P : FieldParams α) (N : ℕ) (rnd : ℕ → α) (_hN : 1 ≤ N) :
    (generateParticles F P N rnd).length = N ∧
    (generateParticles F P N rnd).countP (fun p => p.group == Group.body)
      = sphereCount N ∧
    (generateParticles F P N rnd).countP (fun p => p.group == Group.ring)
      = N - sphereCount N ∧
    N * 35 / 100 ≤ sphereCount N ∧ sphereCount N ≤ N * 40 / 100 ∧
    ∀ p ∈ generateParticles F P N rnd,
      (p.group = Group.body ∨ p.group = Group.ring) ∧
      ¬(p.group = Group.body ∧ p.group = Group.ring) := by
  refine ⟨generateParticles_length F P N rnd,
    generateParticles_countP_body F P N rnd,
    generateParticles_countP_ring F P N rnd, le_rfl, ?_, ?_⟩
  · unfold sphereCount
    exact Nat.div_le_div_right (Nat.mul_le_mul_left N (by norm_num))
  · intro p _
    constructor
    · cases hg : p.group
      · exact Or.inl rfl
      · exact Or.inr rfl
    · rintro ⟨hb, hr⟩
      rw [hb] at hr
      exact Group.noConfusion hr

/-- Witness for C1 at concrete inputs: rationals with stand-in library
functions, `N = 3`. -/
theorem particle_field_partition_witness :
    (generateParticles (α := ℚ) ⟨id, id, id, id, 0⟩ ⟨1, 1, 2, 1⟩ 3 (fun _ => 0)).length
      = 3 ∧
    (generateParticles (α := ℚ) ⟨id, id, id, id, 0⟩ ⟨1, 1, 2, 1⟩ 3
      (fun _ => 0)).countP (fun p => p.group == Group.body) = sphereCount 3 ∧
    (generateParticles (α := ℚ) ⟨id, id, id, id, 0⟩ ⟨1, 1, 2, 1⟩ 3
      (fun _ => 0)).countP (fun p => p.group == Group.ring) = 3 - sphereCount 3 ∧
    3 * 35 / 100 ≤ sphereCount 3 ∧ sphereCount 3 ≤ 3 * 40 / 100 ∧
    ∀ p ∈ generateParticles (α := ℚ) ⟨id, id, id, id, 0⟩ ⟨1, 1, 2, 1⟩ 3
      (fun _ => 0),
      (p.group = Group.body ∨ p.group = Group.ring) ∧
      ¬(p.group = Group.body ∧ p.group = Group.ring) :=
  particle_field_partition ⟨id, id, id, id, 0⟩ ⟨1, 1, 2, 1⟩ 3 (fun _ => 0)
    (by norm_num)

/-- Counterexample to claim C2: with `inner = 1`, `outer = 2` and the
uniform draw `t = 1/4`, the sampled radius is `3/2` and its square is
`9/4`, while the quantile of the area-uniform distribution (radius
squared uniform on `[inner^2, outer^2]`) at `t = 1/4` is
`inner^2 + t*(outer^2 - inner^2) = 7/4`.  Since the transform is the
monotone quantile map applied to the uniform draw, the pushforward of
`r^2` is uniform on `[inner^2, outer^2]` exactly when these agree for
all `t`; they do not, so the claimed area-uniformity over the annulus
fails (it would hold only for `inner = 0`). -/
theorem ring_radius_not_area_uniform :
    ringRadius Real.sqrt 1 2 (1 / 4) = 3 / 2 ∧
    (ringRadius Real.sqrt 1 2 (1 / 4)) ^ 2 ≠
      1 ^ 2 + (1 / 4) * (2 ^ 2 - 1 ^ 2) ∧
    (0 : ℝ) ≤ 1 / 4 ∧ (1 / 4 : ℝ) ≤ 1 ∧ (0 : ℝ) < 1 ∧ (1 : ℝ) < 2 := by
  have hs : Real.sqrt (1 / 4) = 1 / 2 := by
    rw [show (1 / 4 : ℝ) = (1 / 2) ^ 2 by norm_num]
    exact Real.sqrt_sq (by norm_num)
  have hr : ringRadius Real.sqrt 1 2 (1 / 4) = 3 / 2 := by
    unfold ringRadius
    rw [hs]; norm_num
  refine ⟨hr, ?_, by norm_num, by norm_num, by norm_num, by norm_num⟩
  rw [hr]; norm_num

/-- Amended C2: the square-root transform used by the code makes the
distance from the inner edge area-uniform: for every uniform draw
`t ∈ [0,1]`, `(r - inner)^2 = t * (outer - inner)^2` (so
`(r - inner)^2` is uniform on `[0, (outer-inner)^2]`), and the radius
lies in `[inner, outer]`.  This coincides with uniformity of `r^2` on
`[inner^2, outer^2]` only when `inner = 0`. -/
theorem ring_radius_edge_area_uniform (inner outer t : ℝ)
    (ht0 : 0 ≤ t) (ht1 : t ≤ 1) (hio : inner ≤ outer) :
    (ringRadius Real.sqrt inner outer t - inner) ^ 2 = t * (outer - inner) ^ 2 ∧
    inner ≤ ringRadius Real.sqrt inner outer t ∧
    ringRadius Real.sqrt inner outer t ≤ outer := by
  unfold ringRadius
  have hs0 : 0 ≤ Real.sqrt t := Real.sqrt_nonneg t
  have hs1 : Real.sqrt t ≤ 1 := by
    rw [show (1 : ℝ) = Real.sqrt 1 by simp]
    exact Real.sqrt_le_sqrt ht1
  refine ⟨?_, ?_, ?_⟩
  · have e : Real.sqrt t * (outer - inner) + inner - inner
        = Real.sqrt t * (outer - inner) := by ring
    rw [e, mul_pow, Real.sq_sqrt ht0]
  · nlinarith
  · nlinarith

/-- Witness for the amended C2 at `inner = 1`, `outer = 2`,
`t = 1/4`. -/
theorem ring_radius_edge_area_uniform_witness :
    (ringRadius Real.sqrt 1 2 (1 / 4) - 1) ^ 2 = (1 / 4) * (2 - 1) ^ 2 ∧
    (1 : ℝ) ≤ ringRadius Real.sqrt 1 2 (1 / 4) ∧
    ringRadius Real.sqrt 1 2 (1 / 4) ≤ 2 :=
  ring_radius_edge_area_uniform 1 2 (1 / 4) (by norm_num) (by norm_num)
    (by norm_num)

/-- Claim C3: starting from blend = 0, for every frame sequence the
blend value stays in `[0, 1)` (so it never exceeds 1.0, never goes
below 0.0, and never exactly reaches 1.0 in finitely many frames); and
after at least 113 further consecutive frames with
targetMode = DISPERSED the blend is within ε = 0.01 of 1.0. -/
theorem transition_driver_bounds (frames : List Bool) (n : ℕ) (hn : 113 ≤ n) :
    0 ≤ blendRun frames ∧ blendRun frames < 1 ∧
    blendRun (frames ++ List.replicate n true) < 1 ∧
    1 - blendRun (frames ++ List.replicate n true) ≤ 1 / 100 := by
  have hb : 0 ≤ blendRun frames ∧ blendRun frames < 1 :=
    blendFold_bounds frames 0 le_rfl one_pos
  have hall : 0 ≤ blendRun (frames ++ List.replicate n true) ∧
      blendRun (frames ++ List.replicate n true) < 1 :=
    blendFold_bounds (frames ++ List.replicate n true) 0 le_rfl one_pos
  refine ⟨hb.1, hb.2, hall.2, ?_⟩
  have hgap : 1 - blendRun (frames ++ List.replicate n true) =
      (24 / 25) ^ n * (1 - blendRun frames) := by
    unfold blendRun
    rw [List.foldl_append]
    exact blend_dispersed_gap n _
  have hle1 : (1 : ℚ) - blendRun frames ≤ 1 := by
    have := hb.1; linarith
  have hpow : ((24 : ℚ) / 25) ^ n ≤ (24 / 25) ^ 113 :=
    pow_le_pow_of_le_one (by norm_num) (by norm_num) hn
  have hnn : (0 : ℚ) ≤ (24 / 25) ^ n := by positivity
  calc 1 - blendRun (frames ++ List.replicate n true)
      = (24 / 25) ^ n * (1 - blendRun frames) := hgap
    _ ≤ (24 / 25) ^ n * 1 := mul_le_mul_of_nonneg_left hle1 hnn
    _ = (24 / 25) ^ n := by ring
    _ ≤ (24 / 25) ^ 113 := hpow
    _ ≤ 1 / 100 := pow_24_25_small

/-- Witness for C3 at the concrete input: the empty prefix followed by
exactly 113 dispersed frames. -/
theorem transition_driver_bounds_witness :
    0 ≤ blendRun [] ∧ blendRun [] < 1 ∧
    blendRun ([] ++ List.replicate 113 true) < 1 ∧
    1 - blendRun ([] ++ List.replicate 113 true) ≤ 1 / 100 :=
  transition_driver_bounds [] 113 (by norm_num)

/-- Claim C4: starting in the COLLAPSED state, the signal sequence
[CLOSED, OPEN, OPEN, CLOSED, CLOSED] causes exactly one transition into
EXPANDED and exactly one transition back into COLLAPSED (the repeated
OPEN and repeated CLOSED signals are no-ops), and the phrase selector is
invoked exactly once over the whole sequence, for every pool size `K`
and all random draws. -/
theorem gesture_sequence_single_toggle (K r0 r1 r2 r3 r4 : ℕ) :
    expandedTransitions K (initState K)
      [(GState.CLOSED, r0), (GState.OPEN, r1), (GState.OPEN, r2),
       (GState.CLOSED, r3), (GState.CLOSED, r4)] = 1 ∧
    collapsedTransitions K (initState K)
      [(GState.CLOSED, r0), (GState.OPEN, r1), (GState.OPEN, r2),
       (GState.CLOSED, r3), (GState.CLOSED, r4)] = 1 ∧
    (runGestures K (initState K)
      [(GState.CLOSED, r0), (GState.OPEN, r1), (GState.OPEN, r2),
       (GState.CLOSED, r3), (GState.CLOSED, r4)]).selectCount = 1 := by
  refine ⟨?_, ?_, ?_⟩ <;>
    simp [expandedTransitions, collapsedTransitions, runGestures, gestureStep,
      handleGestureDetected, triggerNewPhrase, selectPhrase, initState]

/-- Claim C5: for a phrase pool of size `K ≥ 1` and any in-range random
draws, `K` consecutive invocations of the phrase selection return `K`
pairwise distinct phrase indices (no index is chosen twice within one
cycle), the pool is then exhausted, and the `(K+1)`-th invocation still
succeeds (returns a phrase rather than failing), because the exhausted
pool is transparently refilled to the full index range before
choosing. -/
theorem phrase_selector_cycle (K : ℕ) (choices : ℕ → ℕ) (_hK : 1 ≤ K)
    (hc : ∀ i, i < K → choices i < K - i) (hcK : choices K < K) :
    (selectRun K choices K).1.length = K ∧
    (selectRun K choices K).1.Nodup ∧
    (selectRun K choices K).2 = [] ∧
    (selectPhrase K (selectRun K choices K).2 (choices K)).1.isSome = true := by
  obtain ⟨hlen, hperm⟩ := selectRun_spec K choices hc K le_rfl
  have htot : (selectRun K choices K).1.length + (selectRun K choices K).2.length
      = K := by
    have hl := hperm.length_eq
    simpa [List.length_append, List.length_range] using hl
  have hnil : (selectRun K choices K).2 = [] := by
    have : (selectRun K choices K).2.length = 0 := by omega
    exact List.length_eq_zero.mp this
  have hperm' : (selectRun K choices K).1.Perm (List.range K) := by
    have h := hperm
    rw [hnil, List.append_nil] at h
    exact h
  refine ⟨hlen, hperm'.symm.nodup (List.nodup_range K), hnil, ?_⟩
  rw [hnil]
  simp [selectPhrase, List.getElem?_range, hcK]

/-- Witness for C5 at the concrete pool size 2 with all draws 0: the
two picked indices are distinct and the third call succeeds. -/
theorem phrase_selector_cycle_witness :
    (selectRun 2 (fun _ => 0) 2).1.length = 2 ∧
    (selectRun 2 (fun _ => 0) 2).1.Nodup ∧
    (selectRun 2 (fun _ => 0) 2).2 = [] ∧
    (selectPhrase 2 (selectRun 2 (fun _ => 0) 2).2 0).1.isSome = true :=
  phrase_selector_cycle 2 (fun _ => 0) (by norm_num) (by decide) (by decide)

/-- Counterexample to claim C6: with the invalid parameter set
`RING_INNER_RADIUS = 5 ≥ RING_OUTER_RADIUS = 1`, the particle
generation does not fail fast with a configuration error — it
constructs all `N = 2` particles.  There is no validation anywhere in
the initialization. -/
theorem particle_init_no_validation_cex :
    (⟨4, 5, 1, 30⟩ : FieldParams ℝ).ringOuter ≤
      (⟨4, 5, 1, 30⟩ : FieldParams ℝ).ringInner ∧
    (generateParticles (α := ℝ) ⟨Real.sqrt, Real.cos, Real.sin, Real.arccos, Real.pi⟩
      ⟨4, 5, 1, 30⟩ 2 (fun _ => 1 / 2)).length = 2 := by
  constructor
  · show (1 : ℝ) ≤ 5
    norm_num
  · exact generateParticles_length _ _ 2 _

/-- Amended C6: the particle-field initialization performs no parameter
validation at all: for every parameter assignment — including a ring
inner radius at or above the outer radius — it constructs exactly `N`
particles instead of aborting; degenerate radius parameters flow into
the generated coordinates unchecked. -/
theorem particle_init_total {α : Type} [LinearOrderedField α] (F : MathFns α)
    (P : FieldParams α) (N : ℕ) (rnd : ℕ → α) :
    (generateParticles F P N rnd).length = N :=
  generateParticles_length F P N rnd

/-- Claim C7: the manual override toggle and the classifier-driven
gesture handler are equivalent.  From any state, one manual toggle
produces exactly the same resulting application state (mode, gesture
state, phrase pool, phrase, and selector-invocation count) as the
gesture handler fed the corresponding signal (OPEN when collapsed,
CLOSED when expanded); the phrase selector runs exactly once on a
COLLAPSED→EXPANDED toggle and never on an EXPANDED→COLLAPSED toggle. -/
theorem manual_toggle_equiv (K r : ℕ) (s : AppState) :
    handleManualToggle K r s =
      handleGestureDetected K
        (if s.isExpanded = true then GState.CLOSED else GState.OPEN) r s ∧
    (s.isExpanded = false →
      (handleManualToggle K r s).selectCount = s.selectCount + 1) ∧
    (s.isExpanded = true →
      (handleManualToggle K r s).selectCount = s.selectCount) := by
  obtain ⟨e, g, a, c, n⟩ := s
  cases e <;>
    simp [handleManualToggle, handleGestureDetected, triggerNewPhrase, selectPhrase]

/-- Counterexample to claim C8: at the intermediate blend value
`u = 1/200 ∈ (0, 1)`, with `uTime = 0`, home position `(0,0,0)` and
scatter target `(0,-1,0)`, the shader's output y-coordinate is negative
while the compact-branch y-value is 0 and the dispersed-branch y-value
(scatter plus wander) is 1 — the output is NOT between the two branch
values, because for `u ≤ 0.01` the shader omits the wander term from
the dispersed endpoint before mixing. -/
theorem vertex_not_between_cex :
    (0 : ℝ) < 1 / 200 ∧ (1 / 200 : ℝ) < 1 ∧
    (compactPos Real.sin 0 ⟨0, 0, 0⟩).y = 0 ∧
    (dispersedPos Real.sin Real.cos 0 ⟨0, -1, 0⟩).y = 1 ∧
    (vertexFinalPos Real.sin Real.cos 0 (1 / 200) ⟨0, 0, 0⟩ ⟨0, -1, 0⟩).y <
      min (compactPos Real.sin 0 ⟨0, 0, 0⟩).y
        (dispersedPos Real.sin Real.cos 0 ⟨0, -1, 0⟩).y := by
  have hc : (compactPos Real.sin 0 (⟨0, 0, 0⟩ : Vec3 ℝ)).y = 0 := by
    simp [compactPos]
  have hd : (dispersedPos Real.sin Real.cos 0 (⟨0, -1, 0⟩ : Vec3 ℝ)).y = 1 := by
    simp [dispersedPos, vaddV, wanderVec]
    norm_num
  refine ⟨by norm_num, by norm_num, hc, hd, ?_⟩
  rw [hc, hd]
  have hfin : (vertexFinalPos Real.sin Real.cos 0 (1 / 200) ⟨0, 0, 0⟩ ⟨0, -1, 0⟩).y
      = mixF 0 (-1) (smoothstepF 0 1 (1 / 200)) := by
    unfold vertexFinalPos
    rw [if_pos (show (1 / 200 : ℝ) < 0.99 by norm_num),
      if_neg (show ¬((1 / 200 : ℝ) > 0.01) by norm_num)]
    simp only [vmix]
    rw [hc]
  rw [hfin, smoothstepF_of_unit (by norm_num) (by norm_num)]
  unfold mixF
  norm_num

/-- Amended C8: the per-frame output is the smoothstep(blend) mix of
the two conditionally-assembled endpoints: with blend = 0 exactly the
output equals the compact-mode formula (home plus sinusoidal bob), with
blend = 1 exactly it equals the dispersed-mode formula (scatter plus
wander); and for blend strictly inside the shader's activation band
(0.01, 0.99) — where both the bob and the wander are applied — every
coordinate of the output lies between the compact-branch and
dispersed-branch values.  Outside that band (blend in (0, 0.01] or
[0.99, 1)) the cut-off endpoints may place the output outside the two
branch values. -/
theorem vertex_blend_endpoints_between {α : Type} [LinearOrderedField α]
    (sinF cosF : α → α) (uTime u : α) (pos aRand : Vec3 α)
    (h1 : (0.01 : α) < u) (h2 : u < 0.99) :
    vertexFinalPos sinF cosF uTime 0 pos aRand = compactPos sinF uTime pos ∧
    vertexFinalPos sinF cosF uTime 1 pos aRand
      = dispersedPos sinF cosF uTime aRand ∧
    (min (compactPos sinF uTime pos).x (dispersedPos sinF cosF uTime aRand).x ≤
        (vertexFinalPos sinF cosF uTime u pos aRand).x ∧
      (vertexFinalPos sinF cosF uTime u pos aRand).x ≤
        max (compactPos sinF uTime pos).x (dispersedPos sinF cosF uTime aRand).x) ∧
    (min (compactPos sinF uTime pos).y (dispersedPos sinF cosF uTime aRand).y ≤
        (vertexFinalPos sinF cosF uTime u pos aRand).y ∧
      (vertexFinalPos sinF cosF uTime u pos aRand).y ≤
        max (compactPos sinF uTime pos).y (dispersedPos sinF cosF uTime aRand).y) ∧
    (min (compactPos sinF uTime pos).z (dispersedPos sinF cosF uTime aRand).z ≤
        (vertexFinalPos sinF cosF uTime u pos aRand).z ∧
      (vertexFinalPos sinF cosF uTime u pos aRand).z ≤
        max (compactPos sinF uTime pos).z (dispersedPos sinF cosF uTime aRand).z) := by
  have hu0 : (0 : α) ≤ u := by nlinarith
  have hu1 : u ≤ 1 := by nlinarith
  have hz : vertexFinalPos sinF cosF uTime 0 pos aRand
      = compactPos sinF uTime pos := by
    unfold vertexFinalPos
    rw [if_pos (show (0 : α) < 0.99 by norm_num),
      if_neg (show ¬((0 : α) > 0.01) by norm_num),
      smoothstepF_of_unit (le_refl (0 : α)) zero_le_one]
    simp only [vmix, mixF, compactPos, Vec3.mk.injEq]
    refine ⟨by ring, by ring, by ring⟩
  have ho : vertexFinalPos sinF cosF uTime 1 pos aRand
      = dispersedPos sinF cosF uTime aRand := by
    unfold vertexFinalPos
    rw [if_neg (show ¬((1 : α) < 0.99) by norm_num),
      if_pos (show (1 : α) > 0.01 by norm_num),
      smoothstepF_of_unit zero_le_one (le_refl (1 : α))]
    simp only [vmix, mixF, dispersedPos, vaddV, wanderVec, Vec3.mk.injEq]
    refine ⟨by ring, by ring, by ring⟩
  have hmid : vertexFinalPos sinF cosF uTime u pos aRand
      = vmix (compactPos sinF uTime pos) (dispersedPos sinF cosF uTime aRand)
          (smoothstepF 0 1 u) := by
    unfold vertexFinalPos
    rw [if_pos h2, if_pos (show u > (0.01 : α) from h1)]
  obtain ⟨ht0, ht1⟩ := smoothstepF_unit_bounds hu0 hu1
  refine ⟨hz, ho, ?_, ?_, ?_⟩ <;>
    · rw [hmid]
      exact mixF_between _ _ _ ht0 ht1

/-- Witness for the amended C8 at `u = 1/2`, `uTime = 0`, over ℚ with
identity stand-ins for sin and cos. -/
theorem vertex_blend_endpoints_between_witness :
    vertexFinalPos (α := ℚ) id id 0 0 ⟨0, 0, 0⟩ ⟨1, 1, 1⟩
      = compactPos id 0 ⟨0, 0, 0⟩ ∧
    vertexFinalPos (α := ℚ) id id 0 1 ⟨0, 0, 0⟩ ⟨1, 1, 1⟩
      = dispersedPos id id 0 ⟨1, 1, 1⟩ ∧
    (min (compactPos (α := ℚ) id 0 ⟨0, 0, 0⟩).x
        (dispersedPos id id 0 ⟨1, 1, 1⟩).x ≤
        (vertexFinalPos id id 0 (1 / 2) ⟨0, 0, 0⟩ ⟨1, 1, 1⟩).x ∧
      (vertexFinalPos (α := ℚ) id id 0 (1 / 2) ⟨0, 0, 0⟩ ⟨1, 1, 1⟩).x ≤
        max (compactPos id 0 ⟨0, 0, 0⟩).x (dispersedPos id id 0 ⟨1, 1, 1⟩).x) ∧
    (min (compactPos (α := ℚ) id 0 ⟨0, 0, 0⟩).y
        (dispersedPos id id 0 ⟨1, 1, 1⟩).y ≤
        (vertexFinalPos id id 0 (1 / 2) ⟨0, 0, 0⟩ ⟨1, 1, 1⟩).y ∧
      (vertexFinalPos (α := ℚ) id id 0 (1 / 2) ⟨0, 0, 0⟩ ⟨1, 1, 1⟩).y ≤
        max (compactPos id 0 ⟨0, 0, 0⟩).y (dispersedPos id id 0 ⟨1, 1, 1⟩).y) ∧
    (min (compactPos (α := ℚ) id 0 ⟨0, 0, 0⟩).z
        (dispersedPos id id 0 ⟨1, 1, 1⟩).z ≤
        (vertexFinalPos id id 0 (1 / 2) ⟨0, 0, 0⟩ ⟨1, 1, 1⟩).z ∧
      (vertexFinalPos (α := ℚ) id id 0 (1 / 2) ⟨0, 0, 0⟩ ⟨1, 1, 1⟩).z ≤
        max (compactPos id 0 ⟨0, 0, 0⟩).z (dispersedPos id id 0 ⟨1, 1, 1⟩).z) :=
  vertex_blend_endpoints_between id id 0 (1 / 2) ⟨0, 0, 0⟩ ⟨1, 1, 1⟩
    (by norm_num) (by norm_num)

/-- Counterexample to claim C9: two histories with the same elapsed time
(two frames each) yield different rotation angles — `[compact, compact]`
gives 0.002 while `[expanded, compact]` gives 0.001 — so the compact-mode
rotation angle is not a function of elapsed time alone; it depends on
the history of mode changes. -/
theorem rotation_not_time_only :
    rotYRun [false, false] ≠ rotYRun [true, false] ∧
    [false, false].length = [true, false].length := by
  constructor
  · norm_num [rotYRun, rotYStep]
  · rfl

/-- Amended C9: the rotation angle applied to the particle field around
the vertical axis equals 0.001 × the number of frames spent in compact
mode so far.  It advances only while the field is compact, so it is a
function of the mode history (the count of compact frames), not of
elapsed time alone. -/
theorem rotation_counts_compact_frames (frames : List Bool) :
    rotYRun frames = (frames.count false : ℚ) * 0.001 := by
  simpa using rotYFold_eq frames 0

/-- Claim C10: feeding the gesture handler the signal NONE leaves the
mode, the current phrase, the phrase pool and the selector-invocation
count unchanged, while the stored gesture state becomes NONE; no phrase
selection occurs. -/
theorem gesture_none_noop (K r : ℕ) (s : AppState) :
    (handleGestureDetected K GState.NONE r s).isExpanded = s.isExpanded ∧
    (handleGestureDetected K GState.NONE r s).currentPhrase = s.currentPhrase ∧
    (handleGestureDetected K GState.NONE r s).availableIndices = s.availableIndices ∧
    (handleGestureDetected K GState.NONE r s).selectCount = s.selectCount ∧
    (handleGestureDetected K GState.NONE r s).gestureState = GState.NONE := by
  simp [handleGestureDetected]

end SaturnApp
